import Mathlib

/-! GhostLink web client (`webapp/static/main.js`)

A shallow embedding of the three controllers of `main.js`:

* `UI`      : the page-global overlay and the enabling/disabling of a form's controls;
* `Encoder` : `handleSubmit` of the encode form;
* `Decoder` : `handleSubmit` and `copy` of the decode form.

A handler is a function from the page it starts on, the values it reads from the
controls and the outcome of each asynchronous operation it awaits, to the page it
leaves behind.  The calls a handler makes on its collaborators (the submit event,
`UI`, `fetch`, object URLs, the download anchor, the clipboard) are appended to
`Page.log` in the order the source makes them.
-/

namespace GhostLink

/-! ## Values -/

/-- A `File` of a file input. -/
structure File where
  name : String
  bytes : List Nat
  deriving DecidableEq

/-- A `Blob`, as read from a response body. -/
structure Blob where
  bytes : List Nat
  deriving DecidableEq

/-- The value of one `FormData` entry. -/
inductive FieldValue where
  | text (s : String)
  | file (f : File)
  deriving DecidableEq

/-- The entry list of a `FormData`. -/
abbrev FormData := List (String × FieldValue)

/-- Method `formData.delete(name)`: drops every entry of that name. -/
def FormData.delete (fd : FormData) (name : String) : FormData :=
  fd.filter (fun e => !(e.1 == name))

/-- Method `formData.has(name)`. -/
def FormData.has (fd : FormData) (name : String) : Bool :=
  fd.any (fun e => e.1 == name)

/-- The two forms of the page. -/
inductive FormId where
  | encode
  | decode
  deriving DecidableEq

/-- The calls a handler makes on its collaborators. -/
inductive Effect where
  | preventDefault
  | showOverlay
  | hideOverlay
  | setDisabled (form : FormId) (disabled : Bool)
  | fetch (url : String) (method : String) (body : FormData)
  | createObjectURL (blob : Blob) (url : String)
  | appendAnchor (href : String) (download : String)
  | click (href : String) (download : String)
  | removeAnchor
  | revokeObjectURL (url : String)
  | clipboardWrite (text : String)
  deriving DecidableEq

/-- The part of the document the controllers touch, and the log of their calls. -/
structure Page where
  /-- `overlay.style.display` -/
  overlayDisplay : String
  /-- The `disabled` flag of each element of
  `form.querySelectorAll('input, textarea, button, select')`, encode form. -/
  encodeControls : List Bool
  /-- The same for the decode form. -/
  decodeControls : List Bool
  /-- `textContent` of `#encode-error` -/
  encodeError : String
  /-- `textContent` of `#decode-error` -/
  decodeError : String
  /-- `value` of `#decode-output` -/
  decodeOutput : String
  log : List Effect
  deriving DecidableEq

def Page.emit (p : Page) (e : Effect) : Page :=
  { p with log := p.log ++ [e] }

/-! ## JavaScript strings -/

/-- The `WhiteSpace` and `LineTerminator` code points of ECMAScript, the ones
`String.prototype.trim` strips. -/
def isJSWhitespace (c : Char) : Bool :=
  let n := c.toNat
  n == 0x09 || n == 0x0A || n == 0x0B || n == 0x0C || n == 0x0D || n == 0x20 ||
  n == 0xA0 || n == 0x1680 || (0x2000 ≤ n && n ≤ 0x200A) || n == 0x2028 ||
  n == 0x2029 || n == 0x202F || n == 0x205F || n == 0x3000 || n == 0xFEFF

/-- The work of `String.prototype.trim` on the character list. -/
def trimChars (cs : List Char) : List Char :=
  ((cs.dropWhile isJSWhitespace).reverse.dropWhile isJSWhitespace).reverse

/-- The call `s.trim()`. -/
def jsTrim (s : String) : String :=
  String.mk (trimChars s.data)

/-- Truthiness of a string: non-empty. -/
def strTruthy (s : String) : Bool :=
  !(s.data.isEmpty)

/-! ## Parsed JSON -/

/-- A number produced by `JSON.parse`.  The handlers observe only whether it is
falsy (`0` or `-0`) and what `ToString` makes of it, so it is kept as those two. -/
structure JSNumber where
  isZero : Bool
  shown : String
  deriving DecidableEq

/-- A value produced by `JSON.parse` (`response.json()`). -/
inductive JSValue where
  | null
  | bool (b : Bool)
  | num (n : JSNumber)
  | str (s : String)
  | arr (items : List JSValue)
  | obj (props : List (String × JSValue))

/-- Own property lookup in a parsed object. -/
def lookupProp (name : String) : List (String × JSValue) → Option JSValue
  | [] => none
  | (k, v) :: rest => if k = name then some v else lookupProp name rest

/-- The result of evaluating `data.detail`: `none` is `undefined`; on `null` the
property access throws a `TypeError`. -/
def getDetail : JSValue → Except Unit (Option JSValue)
  | .null => .error ()
  | .obj props => .ok (lookupProp "detail" props)
  | _ => .ok none

/-- The operation `ToBoolean`. -/
def truthy : JSValue → Bool
  | .null => false
  | .bool b => b
  | .num n => !n.isZero
  | .str s => strTruthy s
  | .arr _ => true
  | .obj _ => true

/-- The operation `ToString` on a parsed object; `none` when it throws a
`TypeError`.  `Object.prototype.toString` gives '[object Object]'; an own property
named `toString` hides it, and as no parsed value is callable neither it nor
`valueOf` yields a primitive. -/
def objectString (props : List (String × JSValue)) : Option String :=
  if (lookupProp "toString" props).isSome then none else some "[object Object]"

mutual
/-- The operation `ToString`, which the `textContent` setter applies to the value
it is given; `none` when it throws. -/
def jsToString : JSValue → Option String
  | .null => some "null"
  | .bool b => some (if b then "true" else "false")
  | .num n => some n.shown
  | .str s => some s
  | .arr items => joinItems items
  | .obj props => objectString props
/-- The work of `Array.prototype.join(',')`, which `ToString` of an array calls:
`null` elements render as the empty string. -/
def joinItems : List JSValue → Option String
  | [] => some ""
  | [x] => itemString x
  | x :: y :: rest =>
    match itemString x with
    | none => none
    | some first =>
      match joinItems (y :: rest) with
      | none => none
      | some others => some (first ++ "," ++ others)
/-- One element of an array being joined. -/
def itemString : JSValue → Option String
  | .null => some ""
  | .bool b => some (if b then "true" else "false")
  | .num n => some n.shown
  | .str s => some s
  | .arr items => joinItems items
  | .obj props => objectString props
end

/-- The value of `data.detail || 'Server error'`. -/
def detailOrDefault (detail : Option JSValue) : JSValue :=
  match detail with
  | some v => if truthy v then v else .str "Server error"
  | none => .str "Server error"

/-! ## Responses -/

/-- A settled `fetch` response: its `ok` flag, what each body reader resolves to
(`none`: the promise rejects) and `headers.get('Content-Disposition')`
(`none`: `null`, header absent). -/
structure Response where
  ok : Bool
  json : Option JSValue
  text : Option String
  blob : Option Blob
  contentDisposition : Option String

/-- How a statement list inside `try` ends. -/
inductive Completion where
  | normal
  | returned
  | thrown
  deriving DecidableEq

/-! ## `UI` -/

/-- Function `UI.showOverlay` (lines 6-8). -/
def UI.showOverlay (p : Page) : Page :=
  { p with overlayDisplay := "flex" }.emit .showOverlay

/-- Function `UI.hideOverlay` (lines 9-11). -/
def UI.hideOverlay (p : Page) : Page :=
  { p with overlayDisplay := "none" }.emit .hideOverlay

/-- Function `UI.setDisabled(form, disabled)` (lines 12-16): every queried control
gets the flag. -/
def UI.setDisabled (form : FormId) (disabled : Bool) (p : Page) : Page :=
  match form with
  | .encode =>
    { p with encodeControls := p.encodeControls.map (fun _ => disabled) }.emit
      (.setDisabled .encode disabled)
  | .decode =>
    { p with decodeControls := p.decodeControls.map (fun _ => disabled) }.emit
      (.setDisabled .decode disabled)

/-! ## The filename pattern -/

/-- The class `[^";]`. -/
def isNameChar (c : Char) : Bool :=
  !(c == '"' || c == ';')

/-- Drops `pat` from the front of `cs` when it is there. -/
def dropLiteral : List Char → List Char → Option (List Char)
  | [], cs => some cs
  | _ :: _, [] => none
  | a :: pat, c :: cs => if a = c then dropLiteral pat cs else none

/-- The group `([^";]+)` at the front of `cs`: the longest run, which has to be
non-empty.  The `"?` that follows it in the pattern matches whatever comes next. -/
def nameRun (cs : List Char) : Option (List Char) :=
  let run := cs.takeWhile isNameChar
  if run.isEmpty then none else some run

/-- One attempt of `/filename="?([^";]+)"?/` anchored at the front of `cs`; the
result is capture group 1.  The greedy `"?` first takes a quote when one is
there, and gives it back when the rest fails. -/
def matchHere (cs : List Char) : Option (List Char) :=
  match dropLiteral "filename=".data cs with
  | none => none
  | some rest =>
    let withQuote := match rest with
      | c :: afterQuote => if c = '"' then nameRun afterQuote else none
      | [] => none
    match withQuote with
    | some name => some name
    | none => nameRun rest

/-- The call `disposition.match(/filename="?([^";]+)"?/)`: the attempt is made at each
position from the left, the first success wins; the result is `match[1]`. -/
def matchFilename : List Char → Option (List Char)
  | [] => none
  | c :: cs =>
    match matchHere (c :: cs) with
    | some name => some name
    | none => matchFilename cs

/-- Lines 60-65: the filename the download gets. -/
def downloadFilename (disposition : Option String) : String :=
  match disposition with
  | none => "output.wav"
  | some d =>
    if strTruthy d then
      match matchFilename d.data with
      | some name => String.mk name
      | none => "output.wav"
    else "output.wav"

/-! ## `Encoder` -/

/-- What `Encoder.handleSubmit` reads from the form when it runs. -/
structure EncodeForm where
  /-- `textInput.value` -/
  textValue : String
  /-- `fileInput.files` -/
  files : List File
  /-- The entries `new FormData(form)` collects. -/
  fields : FormData

/-- What the awaited and outside calls of `Encoder.handleSubmit` do. -/
structure EncodeEnv where
  /-- `fetch`: `none` when it rejects. -/
  fetched : Option Response
  /-- The URL `createObjectURL` hands out. -/
  objectURL : String
  /-- Whether `a.click()` throws. -/
  clickThrows : Bool

/-- Lines 49-70, the statements inside `try`. -/
def Encoder.tryBody (p : Page) (formData : FormData) (env : EncodeEnv) : Page × Completion :=
  let p := p.emit (.fetch "/encode" "POST" formData)
  match env.fetched with
  | none => (p, .thrown)
  | some response =>
    if !response.ok then
      let data := match response.json with
        | some v => v
        | none => .obj [("detail", .str "Server error")]
      match getDetail data with
      | .error _ => (p, .thrown)
      | .ok detail =>
        match jsToString (detailOrDefault detail) with
        | none => (p, .thrown)
        | some message => ({ p with encodeError := message }, .returned)
    else
      match response.blob with
      | none => (p, .thrown)
      | some blob =>
        let url := env.objectURL
        let p := p.emit (.createObjectURL blob url)
        let filename := downloadFilename response.contentDisposition
        let p := p.emit (.appendAnchor url filename)
        if env.clickThrows then (p, .thrown)
        else
          let p := p.emit (.click url filename)
          let p := p.emit .removeAnchor
          let p := p.emit (.revokeObjectURL url)
          (p, .normal)

/-- Lines 71-76: `catch` runs when the `try` statements threw, `finally` always. -/
def Encoder.catchFinally (r : Page × Completion) : Page :=
  let p := match r.2 with
    | .thrown => { r.1 with encodeError := "Network error" }
    | _ => r.1
  let p := UI.hideOverlay p
  UI.setDisabled .encode false p

/-- Function `Encoder.handleSubmit` (lines 22-77). -/
def Encoder.handleSubmit (p : Page) (f : EncodeForm) (env : EncodeEnv) : Page :=
  let text := jsTrim f.textValue
  let file := f.files.head?
  let p := { p with encodeError := "" }
  if strTruthy text && file.isSome then
    let p := p.emit .preventDefault
    { p with encodeError := "Provide either text or file, not both." }
  else if !strTruthy text && !file.isSome then
    let p := p.emit .preventDefault
    { p with encodeError := "Provide text or file." }
  else
    let p := p.emit .preventDefault
    let formData := if file.isSome then f.fields.delete "text" else f.fields.delete "file"
    let p := UI.showOverlay p
    let p := UI.setDisabled .encode true p
    Encoder.catchFinally (Encoder.tryBody p formData env)

/-! ## `Decoder` -/

/-- What `Decoder.handleSubmit` reads from the form when it runs. -/
structure DecodeForm where
  /-- `wavInput.files` -/
  files : List File
  /-- The entries `new FormData(form)` collects. -/
  fields : FormData

/-- Lines 105-112, the statements inside `try`. -/
def Decoder.tryBody (p : Page) (formData : FormData) (fetched : Option Response) :
    Page × Completion :=
  let p := p.emit (.fetch "/decode" "POST" formData)
  match fetched with
  | none => (p, .thrown)
  | some response =>
    if !response.ok then
      let data := match response.json with
        | some v => v
        | none => .obj [("detail", .str "Server error")]
      match getDetail data with
      | .error _ => (p, .thrown)
      | .ok detail =>
        match jsToString (detailOrDefault detail) with
        | none => (p, .thrown)
        | some message => ({ p with decodeError := message }, .returned)
    else
      match response.text with
      | none => (p, .thrown)
      | some text => ({ p with decodeOutput := text }, .normal)

/-- Lines 113-118: `catch` runs when the `try` statements threw, `finally` always. -/
def Decoder.catchFinally (r : Page × Completion) : Page :=
  let p := match r.2 with
    | .thrown => { r.1 with decodeError := "Network error" }
    | _ => r.1
  let p := UI.hideOverlay p
  UI.setDisabled .decode false p

/-- Function `Decoder.handleSubmit` (lines 91-119); `fetched` is what `fetch` settles to,
`none` when it rejects. -/
def Decoder.handleSubmit (p : Page) (f : DecodeForm) (fetched : Option Response) : Page :=
  let p := p.emit .preventDefault
  let p := { p with decodeError := "" }
  let p := { p with decodeOutput := "" }
  let file := f.files.head?
  if !file.isSome then
    { p with decodeError := "Provide a WAV file." }
  else
    let formData := f.fields
    let p := UI.showOverlay p
    let p := UI.setDisabled .decode true p
    Decoder.catchFinally (Decoder.tryBody p formData fetched)

/-- What the expression `navigator.clipboard.writeText(output.value)` of line 123
does. -/
inductive ClipboardOutcome where
  /-- The property `navigator.clipboard` is `undefined` (a page not served from a secure
  context): the member access throws, before `output.value` is read or any write
  is asked for. -/
  | unavailable
  /-- The write is asked for and its promise resolves. -/
  | resolves
  /-- The write is asked for and its promise rejects. -/
  | rejects
  deriving DecidableEq

/-- Function `Decoder.copy` (lines 121-127). -/
def Decoder.copy (p : Page) (clipboard : ClipboardOutcome) : Page :=
  match clipboard with
  | .unavailable => { p with decodeError := "Copy failed" }
  | .resolves => p.emit (.clipboardWrite p.decodeOutput)
  | .rejects =>
    let p := p.emit (.clipboardWrite p.decodeOutput)
    { p with decodeError := "Copy failed" }

/-! ## Vocabulary of the statements -/

/-- The requests a log holds, in order. -/
def requests : List Effect → List (String × String × FormData)
  | [] => []
  | .fetch url method body :: rest => (url, method, body) :: requests rest
  | _ :: rest => requests rest

/-- The anchors a log shows appended to the document, each with its `href` and its
`download` attribute, in order. -/
def anchors : List Effect → List (String × String)
  | [] => []
  | .appendAnchor href download :: rest => (href, download) :: anchors rest
  | _ :: rest => anchors rest

/-- The downloads a log shows triggered (the clicks that returned), each with the
`href` and the `download` attribute of the anchor clicked, in order. -/
def downloads : List Effect → List (String × String)
  | [] => []
  | .click href download :: rest => (href, download) :: downloads rest
  | _ :: rest => downloads rest

/-- The object URLs a log shows revoked, in order. -/
def revoked : List Effect → List String
  | [] => []
  | .revokeObjectURL url :: rest => url :: revoked rest
  | _ :: rest => revoked rest

/-- Between the logs `before` and `after` one anchor was built, for `url` and with
`name` as its `download` attribute, and it is the anchor of the one download
triggered, when the click returned (`clicked`). -/
def DownloadNamed (before after : List Effect) (url name : String) (clicked : Bool) : Prop :=
  anchors after = anchors before ++ [(url, name)] ∧
  downloads after = downloads before ++ (if clicked then [(url, name)] else [])

/-- The page on which the `try` statements of `Encoder.handleSubmit` start. -/
def Encoder.busyPage (p : Page) : Page :=
  UI.setDisabled .encode true
    (UI.showOverlay ({ p with encodeError := "" }.emit .preventDefault))

/-- The payload `Encoder.handleSubmit` sends (lines 39-44). -/
def Encoder.payload (f : EncodeForm) : FormData :=
  if f.files.head?.isSome then f.fields.delete "text" else f.fields.delete "file"

/-- Exactly one of trimmed text and file is present. -/
def Encoder.Valid (f : EncodeForm) : Prop :=
  (jsTrim f.textValue ≠ "" ∧ f.files = []) ∨ (jsTrim f.textValue = "" ∧ f.files ≠ [])

/-- The header value `h` has, right after the characters `before`, a `filename`
attribute of value `name`: the text `filename=`, an optional double quote, then
`name`, a non-empty run without double quote or semicolon that ends at a double
quote, a semicolon or the end of the value. -/
def FilenameAttrAt (h before name : List Char) : Prop :=
  ∃ quote rest : List Char,
    h = before ++ ("filename=".data ++ (quote ++ (name ++ rest))) ∧
    (quote = [] ∨ quote = ['"']) ∧
    name ≠ [] ∧
    (∀ c ∈ name, c ≠ '"' ∧ c ≠ ';') ∧
    (rest = [] ∨ ∃ c t, rest = c :: t ∧ (c = '"' ∨ c = ';'))

/-- The page on which the `try` statements of `Decoder.handleSubmit` start. -/
def Decoder.busyPage (p : Page) : Page :=
  UI.setDisabled .decode true
    (UI.showOverlay
      { p with decodeError := "", decodeOutput := "", log := p.log ++ [Effect.preventDefault] })

/-- A parsed body, other than `null`, in which `data.detail` is `undefined` or
falsy (`null`, `false`, zero, the empty string). -/
def DetailMissingOrFalsy : JSValue → Prop
  | .null => False
  | .obj props =>
    match lookupProp "detail" props with
    | none => True
    | some w => truthy w = false
  | _ => True

/-- Busy state is exited: the overlay's display is 'none' and no control of the
list is disabled. -/
def Idle (overlayDisplay : String) (controls : List Bool) : Prop :=
  overlayDisplay = "none" ∧ ∀ b ∈ controls, b = false

/-! ## Concrete inputs -/

def idlePage : Page :=
  { overlayDisplay := "none", encodeControls := [false, false, false],
    decodeControls := [false, false, false], encodeError := "", decodeError := "",
    decodeOutput := "", log := [] }

def sampleFile : File := { name := "in.bin", bytes := [1, 2, 3] }

/-- The entries of an encode form with text typed and a file chosen. -/
def sampleFields : FormData :=
  [("text", .text " hi "), ("file", .file sampleFile)]

/-- The entries of an encode form with text typed and no file chosen: the browser
puts an empty, nameless file in the `file` entry. -/
def textOnlyFields : FormData :=
  [("text", .text " hi "), ("file", .file { name := "", bytes := [] })]

def faultEnv : EncodeEnv := { fetched := none, objectURL := "blob:1", clickThrows := false }

def sampleEncodeForm : EncodeForm :=
  { textValue := " hi ", files := [], fields := textOnlyFields }

def sampleDecodeForm : DecodeForm :=
  { files := [sampleFile], fields := [("file", .file sampleFile)] }

/-- A non-success response with the given parsed body. -/
def failureResponse (body : Option JSValue) : Response :=
  { ok := false, json := body, text := none, blob := none, contentDisposition := none }

def tooLongResponse : Response :=
  failureResponse (some (.obj [("detail", .str "too long")]))

/-- The body `{"detail": [{"msg": "field required"}]}`. -/
def listDetailBody : JSValue :=
  .obj [("detail", .arr [.obj [("msg", .str "field required")]])]

/-- A page on which both forms are busy. -/
def bothBusyPage : Page :=
  { overlayDisplay := "flex", encodeControls := [true, true, true],
    decodeControls := [true, true], encodeError := "", decodeError := "",
    decodeOutput := "", log := [] }

/-- A successful encode response carrying `song.wav`. -/
def songResponse : Response :=
  { ok := true, json := none, text := none, blob := some { bytes := [82, 73, 70, 70] },
    contentDisposition := some "attachment; filename=\"song.wav\"" }

/-- An encode form with blank text and a file chosen. -/
def fileOnlyForm : EncodeForm :=
  { textValue := "  ", files := [sampleFile],
    fields := [("text", .text "  "), ("file", .file sampleFile)] }

def emptyEncodeForm : EncodeForm :=
  { textValue := "  ", files := [], fields := [("text", .text "  ")] }

def emptyDecodeForm : DecodeForm :=
  { files := [], fields := [] }

/-- The page after `hello world` was decoded. -/
def shownOutputPage : Page :=
  { overlayDisplay := "none", encodeControls := [false, false, false],
    decodeControls := [false, false, false], encodeError := "", decodeError := "",
    decodeOutput := "hello world", log := [] }

/-- A successful encode response whose header has the attribute `filename="b.wav"`
after a parameter whose quoted value holds the text `filename=a.wav`. -/
def noteResponse : Response :=
  { ok := true, json := none, text := none, blob := some { bytes := [82, 73, 70, 70] },
    contentDisposition := some "attachment; note=\"filename=a.wav\"; filename=\"b.wav\"" }

/-- A successful encode response without a `Content-Disposition` header. -/
def bareResponse : Response :=
  { ok := true, json := none, text := none, blob := some { bytes := [82, 73, 70, 70] },
    contentDisposition := none }

/-- A successful encode response whose header names no file. -/
def inlineResponse : Response :=
  { ok := true, json := none, text := none, blob := some { bytes := [82, 73, 70, 70] },
    contentDisposition := some "inline" }

/-- The page while a decode request is in flight: overlay shown, the decode form's
controls disabled, the encode form's controls enabled. -/
def decodeInFlightPage : Page :=
  { overlayDisplay := "flex", encodeControls := [false, false, false],
    decodeControls := [true, true, true], encodeError := "", decodeError := "",
    decodeOutput := "", log := [] }

/-- The page while an encode request is in flight. -/
def encodeInFlightPage : Page :=
  { overlayDisplay := "flex", encodeControls := [true, true, true],
    decodeControls := [false, false, false], encodeError := "", decodeError := "",
    decodeOutput := "", log := [] }

/-- A successful decode response with body `hello world`. -/
def helloResponse : Response :=
  { ok := true, json := none, text := some "hello world", blob := none,
    contentDisposition := none }

/-! ## Basic facts -/

theorem strTruthy_eq_true_iff (s : String) : strTruthy s = true ↔ s ≠ "" := by
  cases s with
  | mk cs =>
    cases cs with
    | nil => simp [strTruthy]
    | cons c cs =>
      simp only [strTruthy, List.isEmpty_cons, Bool.not_false, ne_eq, true_iff]
      intro h
      have := congrArg String.data h
      simp at this

theorem strTruthy_eq_false_iff (s : String) : strTruthy s = false ↔ s = "" := by
  rw [← Bool.not_eq_true, strTruthy_eq_true_iff]
  simp

theorem head?_isSome_iff {α : Type} (xs : List α) : xs.head?.isSome = true ↔ xs ≠ [] := by
  cases xs <;> simp

theorem head?_isSome_eq_false_iff {α : Type} (xs : List α) :
    xs.head?.isSome = false ↔ xs = [] := by
  cases xs <;> simp

theorem dropWhile_eq_nil_iff_all {α : Type} (q : α → Bool) (xs : List α) :
    xs.dropWhile q = [] ↔ ∀ x ∈ xs, q x = true := by
  induction xs with
  | nil => simp
  | cons x xs ih =>
    by_cases hx : q x = true
    · simp [List.dropWhile_cons, hx, ih]
    · simp [List.dropWhile_cons, hx]

/-- Trimming leaves nothing exactly when the text is empty or all whitespace. -/
theorem jsTrim_eq_empty_iff (s : String) :
    jsTrim s = "" ↔ ∀ c ∈ s.data, isJSWhitespace c = true := by
  have h1 : jsTrim s = "" ↔ trimChars s.data = [] := by
    constructor
    · intro h
      exact congrArg String.data h
    · intro h
      simp only [jsTrim, h]
  rw [h1, trimChars, List.reverse_eq_nil_iff, dropWhile_eq_nil_iff_all]
  constructor
  · intro h
    rw [← dropWhile_eq_nil_iff_all]
    by_contra hne
    obtain ⟨a, t, hat⟩ := List.exists_cons_of_ne_nil hne
    have ha : a ∈ (s.data.dropWhile isJSWhitespace).reverse := by
      rw [hat]
      simp
    have h2 := h a ha
    have h3 : (s.data.dropWhile isJSWhitespace).head? = some a := by
      rw [hat]
      rfl
    have h4 := List.head?_dropWhile_not isJSWhitespace s.data
    rw [h3] at h4
    simp [h2] at h4
  · intro h c hc
    rw [List.mem_reverse] at hc
    exact h c ((List.dropWhile_sublist isJSWhitespace).subset hc)

/-! ## `Encoder.handleSubmit`: validation and the request -/

theorem requests_append (xs ys : List Effect) :
    requests (xs ++ ys) = requests xs ++ requests ys := by
  induction xs with
  | nil => rfl
  | cons x xs ih => cases x <;> simp [requests, ih]

/-- C1. `Encoder.handleSubmit` with text left after trimming and a file selected
ends with the error text 'Provide either text or file, not both.'; with nothing
left after trimming and no file it ends with 'Provide text or file.'.  In both
cases the only call made is `preventDefault`: no request, the overlay and every
control's `disabled` flag are as they were. -/
theorem encoder_validation_rejects (p : Page) (f : EncodeForm) (env : EncodeEnv) :
    (jsTrim f.textValue ≠ "" → f.files ≠ [] →
      Encoder.handleSubmit p f env =
        { p with encodeError := "Provide either text or file, not both.",
                 log := p.log ++ [Effect.preventDefault] }) ∧
    (jsTrim f.textValue = "" → f.files = [] →
      Encoder.handleSubmit p f env =
        { p with encodeError := "Provide text or file.",
                 log := p.log ++ [Effect.preventDefault] }) := by
  constructor
  · intro ht hf
    have h1 := (strTruthy_eq_true_iff _).2 ht
    have h2 := (head?_isSome_iff _).2 hf
    simp [Encoder.handleSubmit, h1, h2, Page.emit]
  · intro ht hf
    have h1 := (strTruthy_eq_false_iff _).2 ht
    have h2 := (head?_isSome_eq_false_iff _).2 hf
    simp [Encoder.handleSubmit, h1, h2, Page.emit]

theorem encoder_validation_rejects_witness :
    (jsTrim " hi " ≠ "" ∧ [sampleFile] ≠ [] ∧
      Encoder.handleSubmit idlePage ⟨" hi ", [sampleFile], sampleFields⟩ faultEnv =
        { idlePage with encodeError := "Provide either text or file, not both.",
                        log := idlePage.log ++ [Effect.preventDefault] }) ∧
    (jsTrim " \n" = "" ∧ ([] : List File) = [] ∧
      Encoder.handleSubmit idlePage ⟨" \n", [], sampleFields⟩ faultEnv =
        { idlePage with encodeError := "Provide text or file.",
                        log := idlePage.log ++ [Effect.preventDefault] }) :=
  ⟨⟨by decide, by decide,
      (encoder_validation_rejects idlePage ⟨" hi ", [sampleFile], sampleFields⟩ faultEnv).1
        (by decide) (by decide)⟩,
   ⟨by decide, rfl,
      (encoder_validation_rejects idlePage ⟨" \n", [], sampleFields⟩ faultEnv).2
        (by decide) rfl⟩⟩

theorem encoder_handleSubmit_of_valid (p : Page) (f : EncodeForm) (env : EncodeEnv)
    (h : Encoder.Valid f) :
    Encoder.handleSubmit p f env =
      Encoder.catchFinally (Encoder.tryBody (Encoder.busyPage p) (Encoder.payload f) env) := by
  rcases h with ⟨ht, hf⟩ | ⟨ht, hf⟩
  · have h1 := (strTruthy_eq_true_iff _).2 ht
    have h2 := (head?_isSome_eq_false_iff _).2 hf
    simp [Encoder.handleSubmit, h1, h2, Encoder.busyPage, Encoder.payload]
  · have h1 := (strTruthy_eq_false_iff _).2 ht
    have h2 := (head?_isSome_iff _).2 hf
    simp [Encoder.handleSubmit, h1, h2, Encoder.busyPage, Encoder.payload]

theorem encoder_requests_tryBody (p : Page) (fd : FormData) (env : EncodeEnv) :
    requests (Encoder.tryBody p fd env).1.log = requests p.log ++ [("/encode", "POST", fd)] := by
  obtain ⟨fetched, url, clickThrows⟩ := env
  cases fetched with
  | none => simp [Encoder.tryBody, Page.emit, requests_append, requests]
  | some r =>
    obtain ⟨ok, json, text, blob, disposition⟩ := r
    cases ok with
    | false =>
      cases hd : getDetail (match json with
        | some v => v
        | none => .obj [("detail", .str "Server error")]) with
      | error e => simp [Encoder.tryBody, hd, Page.emit, requests_append, requests]
      | ok detail =>
        cases hs : jsToString (detailOrDefault detail) <;>
          simp [Encoder.tryBody, hd, hs, Page.emit, requests_append, requests]
    | true =>
      cases blob with
      | none => simp [Encoder.tryBody, Page.emit, requests_append, requests]
      | some b =>
        cases clickThrows <;> simp [Encoder.tryBody, Page.emit, requests_append, requests]

theorem encoder_requests_catchFinally (r : Page × Completion) :
    requests (Encoder.catchFinally r).log = requests r.1.log := by
  obtain ⟨q, c⟩ := r
  cases c <;>
    simp [Encoder.catchFinally, UI.hideOverlay, UI.setDisabled, Page.emit, requests_append,
      requests]

theorem encoder_requests_busyPage (p : Page) :
    requests (Encoder.busyPage p).log = requests p.log := by
  simp [Encoder.busyPage, UI.showOverlay, UI.setDisabled, Page.emit, requests_append, requests]

theorem formData_has_delete (fd : FormData) (name : String) :
    (fd.delete name).has name = false := by
  simp [FormData.delete, FormData.has, List.any_filter]

/-- C2. When exactly one of trimmed text and file is present, `Encoder.handleSubmit`
issues exactly one request, a POST to `/encode`, whatever the request then does.
Its payload is the form's entry list without the entries named 'text' when a file
is selected, and without the entries named 'file' when only text is present; it
never has both a 'text' and a 'file' entry. -/
theorem encoder_payload_exclusive (p : Page) (f : EncodeForm) (env : EncodeEnv)
    (h : (jsTrim f.textValue ≠ "" ∧ f.files = []) ∨ (jsTrim f.textValue = "" ∧ f.files ≠ [])) :
    ∃ payload : FormData,
      requests (Encoder.handleSubmit p f env).log =
        requests p.log ++ [("/encode", "POST", payload)] ∧
      (f.files ≠ [] → payload = f.fields.delete "text" ∧ payload.has "text" = false) ∧
      (f.files = [] → payload = f.fields.delete "file" ∧ payload.has "file" = false) ∧
      ¬ (payload.has "text" = true ∧ payload.has "file" = true) := by
  refine ⟨Encoder.payload f, ?_, ?_, ?_, ?_⟩
  · rw [encoder_handleSubmit_of_valid p f env h, encoder_requests_catchFinally,
      encoder_requests_tryBody, encoder_requests_busyPage]
  · intro hf
    have h2 := (head?_isSome_iff _).2 hf
    simp [Encoder.payload, h2, formData_has_delete]
  · intro hf
    have h2 := (head?_isSome_eq_false_iff _).2 hf
    simp [Encoder.payload, h2, formData_has_delete]
  · rintro ⟨h1, h2⟩
    unfold Encoder.payload at h1 h2
    by_cases hs : f.files.head?.isSome = true
    · rw [if_pos hs, formData_has_delete] at h1
      cases h1
    · rw [if_neg hs, formData_has_delete] at h2
      cases h2

theorem encoder_payload_exclusive_witness :
    (∃ payload : FormData,
      requests (Encoder.handleSubmit idlePage sampleEncodeForm faultEnv).log =
        requests idlePage.log ++ [("/encode", "POST", payload)] ∧
      (sampleEncodeForm.files ≠ [] →
        payload = sampleEncodeForm.fields.delete "text" ∧ payload.has "text" = false) ∧
      (sampleEncodeForm.files = [] →
        payload = sampleEncodeForm.fields.delete "file" ∧ payload.has "file" = false) ∧
      ¬ (payload.has "text" = true ∧ payload.has "file" = true)) ∧
    (∃ payload : FormData,
      requests (Encoder.handleSubmit idlePage fileOnlyForm faultEnv).log =
        requests idlePage.log ++ [("/encode", "POST", payload)] ∧
      (fileOnlyForm.files ≠ [] →
        payload = fileOnlyForm.fields.delete "text" ∧ payload.has "text" = false) ∧
      (fileOnlyForm.files = [] →
        payload = fileOnlyForm.fields.delete "file" ∧ payload.has "file" = false) ∧
      ¬ (payload.has "text" = true ∧ payload.has "file" = true)) ∧
    requests (Encoder.handleSubmit idlePage sampleEncodeForm faultEnv).log =
      [("/encode", "POST", [("text", .text " hi ")])] ∧
    requests (Encoder.handleSubmit idlePage fileOnlyForm faultEnv).log =
      [("/encode", "POST", [("file", .file sampleFile)])] :=
  ⟨encoder_payload_exclusive idlePage sampleEncodeForm faultEnv (Or.inl ⟨by decide, rfl⟩),
    encoder_payload_exclusive idlePage fileOnlyForm faultEnv (Or.inr ⟨by decide, by decide⟩),
    by decide, by decide⟩

/-! ## The download filename -/

theorem isNameChar_iff (c : Char) : isNameChar c = true ↔ c ≠ '"' ∧ c ≠ ';' := by
  simp [isNameChar]

theorem dropLiteral_eq_some_iff (pat cs rest : List Char) :
    dropLiteral pat cs = some rest ↔ cs = pat ++ rest := by
  induction pat generalizing cs with
  | nil => simp [dropLiteral, eq_comm]
  | cons a pat ih =>
    cases cs with
    | nil => simp [dropLiteral]
    | cons c cs =>
      by_cases hac : a = c
      · subst hac
        simp [dropLiteral, ih]
      · simp [dropLiteral, hac]
        intro h
        exact absurd h.symm hac

theorem takeWhile_append_stop {α : Type} (q : α → Bool) (xs rest : List α)
    (hxs : ∀ x ∈ xs, q x = true) (hrest : rest = [] ∨ ∃ c t, rest = c :: t ∧ q c = false) :
    (xs ++ rest).takeWhile q = xs := by
  induction xs with
  | nil =>
    rcases hrest with h | ⟨c, t, h, hc⟩
    · simp [h]
    · simp [h, List.takeWhile_cons, hc]
  | cons x xs ih =>
    have hx : q x = true := hxs x (by simp)
    simp only [List.cons_append, List.takeWhile_cons, hx, if_true]
    rw [ih (fun y hy => hxs y (by simp [hy]))]

theorem dropWhile_stop {α : Type} (q : α → Bool) (xs : List α) :
    xs.dropWhile q = [] ∨ ∃ c t, xs.dropWhile q = c :: t ∧ q c = false := by
  induction xs with
  | nil => simp
  | cons x xs ih =>
    by_cases hx : q x = true
    · simpa [List.dropWhile_cons, hx] using ih
    · right
      exact ⟨x, xs, by simp [List.dropWhile_cons, hx], by simpa using hx⟩

/-- The run `nameRun` returns, characterised. -/
theorem nameRun_eq_some_iff (cs name : List Char) :
    nameRun cs = some name ↔
      name ≠ [] ∧ (∀ c ∈ name, isNameChar c = true) ∧
      ∃ rest, cs = name ++ rest ∧ (rest = [] ∨ ∃ c t, rest = c :: t ∧ isNameChar c = false) := by
  constructor
  · intro h
    unfold nameRun at h
    by_cases he : (cs.takeWhile isNameChar).isEmpty = true
    · simp [he] at h
    · simp only [he] at h
      have hn : cs.takeWhile isNameChar = name := by simpa using h
      refine ⟨?_, ?_, cs.dropWhile isNameChar, ?_, dropWhile_stop _ _⟩
      · rw [← hn]
        simpa using he
      · intro c hc
        rw [← hn] at hc
        exact (List.mem_takeWhile_imp hc)
      · rw [← hn]
        exact (List.takeWhile_append_dropWhile isNameChar cs).symm
  · rintro ⟨hne, hall, rest, hcs, hrest⟩
    have ht : cs.takeWhile isNameChar = name := by
      rw [hcs]
      exact takeWhile_append_stop _ _ _ hall hrest
    unfold nameRun
    simp only [ht]
    cases name with
    | nil => exact absurd rfl hne
    | cons a t => simp

theorem isNameChar_eq_false_iff (c : Char) : isNameChar c = false ↔ c = '"' ∨ c = ';' := by
  simp only [isNameChar, Bool.not_eq_false_eq_eq_true, Bool.or_eq_true, beq_iff_eq]

theorem nameRun_eq_some_of_attr (name rest : List Char) (hne : name ≠ [])
    (hall : ∀ c ∈ name, c ≠ '"' ∧ c ≠ ';')
    (hrest : rest = [] ∨ ∃ c t, rest = c :: t ∧ (c = '"' ∨ c = ';')) :
    nameRun (name ++ rest) = some name := by
  rw [nameRun_eq_some_iff]
  refine ⟨hne, fun c hc => (isNameChar_iff c).2 (hall c hc), rest, rfl, ?_⟩
  rcases hrest with h | ⟨c, t, h, hc⟩
  · exact Or.inl h
  · exact Or.inr ⟨c, t, h, (isNameChar_eq_false_iff c).2 hc⟩

theorem attr_of_nameRun_eq_some (cs name : List Char) (h : nameRun cs = some name) :
    name ≠ [] ∧ (∀ c ∈ name, c ≠ '"' ∧ c ≠ ';') ∧
      ∃ rest, cs = name ++ rest ∧ (rest = [] ∨ ∃ c t, rest = c :: t ∧ (c = '"' ∨ c = ';')) := by
  obtain ⟨hne, hall, rest, hcs, hrest⟩ := (nameRun_eq_some_iff cs name).1 h
  refine ⟨hne, fun c hc => (isNameChar_iff c).1 (hall c hc), rest, hcs, ?_⟩
  rcases hrest with h | ⟨c, t, h, hc⟩
  · exact Or.inl h
  · exact Or.inr ⟨c, t, h, (isNameChar_eq_false_iff c).1 hc⟩

/-- An attempt of the pattern at the front of `cs` succeeds with `name` exactly
when `cs` starts with a `filename` attribute of that value. -/
theorem matchHere_eq_some_iff (cs name : List Char) :
    matchHere cs = some name ↔ FilenameAttrAt cs [] name := by
  constructor
  · intro h
    unfold matchHere at h
    cases hd : dropLiteral "filename=".data cs with
    | none => simp [hd] at h
    | some r =>
      have hcs := (dropLiteral_eq_some_iff _ _ _).1 hd
      simp only [hd] at h
      cases r with
      | nil =>
        simp only at h
        obtain ⟨hne, -, rest, hr, -⟩ := attr_of_nameRun_eq_some _ _ h
        cases name with
        | nil => exact absurd rfl hne
        | cons a t => simp at hr
      | cons c aq =>
        by_cases hc : c = '"'
        · subst hc
          simp only [if_true] at h
          cases hq : nameRun aq with
          | some n =>
            simp only [hq] at h
            have hn : n = name := by simpa using h
            subst hn
            obtain ⟨hne, hall, rest, hr, hrest⟩ := attr_of_nameRun_eq_some _ _ hq
            exact ⟨['"'], rest, by simp [hcs, hr], Or.inr rfl, hne, hall, hrest⟩
          | none =>
            simp only [hq] at h
            obtain ⟨hne, hall, rest, hr, -⟩ := attr_of_nameRun_eq_some _ _ h
            cases name with
            | nil => exact absurd rfl hne
            | cons a t =>
              simp only [List.cons_append, List.cons.injEq] at hr
              have := (hall a (by simp)).1
              exact absurd hr.1.symm this
        · simp only [hc, if_false] at h
          obtain ⟨hne, hall, rest, hr, hrest⟩ := attr_of_nameRun_eq_some _ _ h
          exact ⟨[], rest, by simp [hcs, hr], Or.inl rfl, hne, hall, hrest⟩
  · rintro ⟨quote, rest, hcs, hq, hne, hall, hrest⟩
    have hd : dropLiteral "filename=".data cs = some (quote ++ (name ++ rest)) := by
      rw [dropLiteral_eq_some_iff]
      simpa using hcs
    have hrun := nameRun_eq_some_of_attr name rest hne hall hrest
    unfold matchHere
    simp only [hd]
    rcases hq with hq | hq
    · subst hq
      cases name with
      | nil => exact absurd rfl hne
      | cons a t =>
        have ha : a ≠ '"' := (hall a (by simp)).1
        simp only [List.nil_append, List.cons_append, ha, if_false]
        simpa using hrun
    · subst hq
      simp only [List.cons_append, List.nil_append, if_true, hrun]

theorem not_filenameAttrAt_nil (before name : List Char) : ¬ FilenameAttrAt [] before name := by
  rintro ⟨quote, rest, h, -⟩
  have := congrArg List.length h
  simp at this
  omega

theorem filenameAttrAt_cons_cons (c b : Char) (cs before name : List Char) :
    FilenameAttrAt (c :: cs) (b :: before) name ↔ b = c ∧ FilenameAttrAt cs before name := by
  constructor
  · rintro ⟨quote, rest, h, hrest⟩
    simp only [List.cons_append, List.cons.injEq] at h
    exact ⟨h.1.symm, quote, rest, h.2, hrest⟩
  · rintro ⟨hbc, quote, rest, h, hrest⟩
    exact ⟨quote, rest, by simp [hbc, h], hrest⟩

/-- The search fails exactly when the value has no `filename` attribute anywhere. -/
theorem matchFilename_eq_none_iff (h : List Char) :
    matchFilename h = none ↔ ∀ before name, ¬ FilenameAttrAt h before name := by
  induction h with
  | nil => simp [matchFilename, not_filenameAttrAt_nil]
  | cons c cs ih =>
    unfold matchFilename
    cases hm : matchHere (c :: cs) with
    | some n =>
      simp only [reduceCtorEq, false_iff, not_forall, not_not]
      exact ⟨[], n, (matchHere_eq_some_iff _ _).1 hm⟩
    | none =>
      simp only [ih]
      constructor
      · intro hcs before name hattr
        cases before with
        | nil =>
          have := (matchHere_eq_some_iff _ _).2 hattr
          rw [hm] at this
          cases this
        | cons b bs => exact hcs bs name ((filenameAttrAt_cons_cons _ _ _ _ _).1 hattr).2
      · intro hall before name hattr
        exact hall (c :: before) name ((filenameAttrAt_cons_cons _ _ _ _ _).2 ⟨rfl, hattr⟩)

/-- The search returns the value of the leftmost `filename` attribute. -/
theorem matchFilename_eq_some_iff (h name : List Char) :
    matchFilename h = some name ↔
      ∃ before, FilenameAttrAt h before name ∧
        ∀ before2 name2, FilenameAttrAt h before2 name2 → before.length ≤ before2.length := by
  induction h with
  | nil =>
    simp only [matchFilename, reduceCtorEq, false_iff, not_exists, not_and]
    intro before hattr
    exact absurd hattr (not_filenameAttrAt_nil _ _)
  | cons c cs ih =>
    unfold matchFilename
    cases hm : matchHere (c :: cs) with
    | some n =>
      simp only [Option.some.injEq]
      have hn := (matchHere_eq_some_iff _ _).1 hm
      constructor
      · intro hnn
        subst hnn
        exact ⟨[], hn, fun _ _ _ => Nat.zero_le _⟩
      · rintro ⟨before, hattr, hmin⟩
        have hlen := hmin [] n hn
        have hb : before = [] := List.length_eq_zero.1 (Nat.le_zero.1 hlen)
        subst hb
        have := (matchHere_eq_some_iff _ _).2 hattr
        rw [hm] at this
        exact Option.some.inj this
    | none =>
      simp only [ih]
      constructor
      · rintro ⟨before, hattr, hmin⟩
        refine ⟨c :: before, (filenameAttrAt_cons_cons _ _ _ _ _).2 ⟨rfl, hattr⟩, ?_⟩
        intro before2 name2 hattr2
        cases before2 with
        | nil =>
          have := (matchHere_eq_some_iff _ _).2 hattr2
          rw [hm] at this
          cases this
        | cons b bs =>
          have := hmin bs name2 ((filenameAttrAt_cons_cons _ _ _ _ _).1 hattr2).2
          simpa using this
      · rintro ⟨before, hattr, hmin⟩
        cases before with
        | nil =>
          have := (matchHere_eq_some_iff _ _).2 hattr
          rw [hm] at this
          cases this
        | cons b bs =>
          refine ⟨bs, ((filenameAttrAt_cons_cons _ _ _ _ _).1 hattr).2, ?_⟩
          intro before2 name2 hattr2
          have := hmin (c :: before2) name2
            ((filenameAttrAt_cons_cons _ _ _ _ _).2 ⟨rfl, hattr2⟩)
          simpa using this

theorem matchHere_drop_of_attr (h before name : List Char) (hattr : FilenameAttrAt h before name) :
    matchHere (h.drop before.length) = some name := by
  obtain ⟨quote, rest, hh, hrest⟩ := hattr
  rw [matchHere_eq_some_iff]
  refine ⟨quote, rest, ?_, hrest⟩
  rw [hh, List.drop_left]
  rfl

/-- The name `downloadFilename` returns, in terms of the header text. -/
theorem downloadFilename_spec (h : String) :
    downloadFilename none = "output.wav" ∧
    ((∀ before name, ¬ FilenameAttrAt h.data before name) →
      downloadFilename (some h) = "output.wav") ∧
    (∀ before name, FilenameAttrAt h.data before name →
      (∀ before2 name2, FilenameAttrAt h.data before2 name2 →
        before.length ≤ before2.length) →
      downloadFilename (some h) = String.mk name) := by
  refine ⟨rfl, ?_, ?_⟩
  · intro hno
    have hm := (matchFilename_eq_none_iff h.data).2 hno
    unfold downloadFilename
    simp only [hm]
    split <;> rfl
  · intro before name hattr hmin
    have hm := (matchFilename_eq_some_iff h.data name).2 ⟨before, hattr, hmin⟩
    have hne : strTruthy h = true := by
      rw [strTruthy_eq_true_iff]
      intro he
      subst he
      exact not_filenameAttrAt_nil _ _ hattr
    unfold downloadFilename
    simp only [hm, hne, if_true]

theorem anchors_append (xs ys : List Effect) :
    anchors (xs ++ ys) = anchors xs ++ anchors ys := by
  induction xs with
  | nil => rfl
  | cons x xs ih => cases x <;> simp [anchors, ih]

theorem downloads_append (xs ys : List Effect) :
    downloads (xs ++ ys) = downloads xs ++ downloads ys := by
  induction xs with
  | nil => rfl
  | cons x xs ih => cases x <;> simp [downloads, ih]

theorem revoked_append (xs ys : List Effect) :
    revoked (xs ++ ys) = revoked xs ++ revoked ys := by
  induction xs with
  | nil => rfl
  | cons x xs ih => cases x <;> simp [revoked, ih]

/-- The calls of a valid encode submission whose response is a success with a
readable body, in order. -/
theorem encoder_success_log (p : Page) (f : EncodeForm) (env : EncodeEnv) (r : Response)
    (b : Blob) (hv : Encoder.Valid f) (hf : env.fetched = some r) (hok : r.ok = true)
    (hb : r.blob = some b) :
    (Encoder.handleSubmit p f env).log =
      p.log ++ ([.preventDefault, .showOverlay, .setDisabled .encode true,
          .fetch "/encode" "POST" (Encoder.payload f),
          .createObjectURL b env.objectURL,
          .appendAnchor env.objectURL (downloadFilename r.contentDisposition)] ++
        ((if env.clickThrows then []
          else [.click env.objectURL (downloadFilename r.contentDisposition), .removeAnchor,
            .revokeObjectURL env.objectURL]) ++
        [.hideOverlay, .setDisabled .encode false])) := by
  obtain ⟨fetched, url, clickThrows⟩ := env
  obtain ⟨ok, json, text, blob, disposition⟩ := r
  simp only at hf hok hb
  subst hf hok hb
  rw [encoder_handleSubmit_of_valid p f _ hv]
  cases clickThrows <;>
    simp [Encoder.tryBody, Encoder.catchFinally, Encoder.busyPage, UI.showOverlay,
      UI.hideOverlay, UI.setDisabled, Page.emit]

theorem encoder_success_downloadNamed (p : Page) (f : EncodeForm) (env : EncodeEnv)
    (r : Response) (b : Blob) (hv : Encoder.Valid f) (hf : env.fetched = some r)
    (hok : r.ok = true) (hb : r.blob = some b) :
    DownloadNamed p.log (Encoder.handleSubmit p f env).log env.objectURL
      (downloadFilename r.contentDisposition) (!env.clickThrows) := by
  rw [encoder_success_log p f env r b hv hf hok hb]
  cases env.clickThrows <;>
    simp [DownloadNamed, anchors_append, downloads_append, anchors, downloads]

/-- C3, as stated, fails. The header of `noteResponse` has the attribute
`filename="b.wav"`; the text `filename=a.wav` in front of it sits inside the quoted
value of another parameter. The pattern matches there first: the anchor that
`Encoder.handleSubmit` builds and clicks has `a.wav` as its `download` attribute,
and nothing is downloaded as `b.wav`. -/
theorem download_not_named_by_the_attribute :
    FilenameAttrAt "attachment; note=\"filename=a.wav\"; filename=\"b.wav\"".data
        "attachment; note=\"filename=a.wav\"; ".data "b.wav".data ∧
    noteResponse.contentDisposition =
      some "attachment; note=\"filename=a.wav\"; filename=\"b.wav\"" ∧
    downloads (Encoder.handleSubmit idlePage sampleEncodeForm
        { fetched := some noteResponse, objectURL := "blob:1", clickThrows := false }).log
      = [("blob:1", "a.wav")] ∧
    ¬ DownloadNamed idlePage.log
        (Encoder.handleSubmit idlePage sampleEncodeForm
          { fetched := some noteResponse, objectURL := "blob:1", clickThrows := false }).log
        "blob:1" "b.wav" true :=
  ⟨⟨['"'], ['"'], by decide, Or.inr rfl, by decide, by decide, Or.inr ⟨'"', [], rfl, Or.inl rfl⟩⟩,
    rfl, by decide, by
      intro h
      have h2 := h.2
      revert h2
      decide⟩

/-- C3, amended. For every valid encode submission answered by a success response
with a readable body, `Encoder.handleSubmit` builds one anchor and clicks it, and
the anchor's `download` attribute, the name the download uses, is: `output.wav`
when the response has no `Content-Disposition` header or its value holds the text
of a `filename` attribute nowhere; otherwise the NAME of the leftmost occurrence of
that text in the value (`filename=`, an optional double quote, then the non-empty
run NAME up to the next double quote, semicolon or the end of the value). -/
theorem download_filename_leftmost (p : Page) (f : EncodeForm) (env : EncodeEnv)
    (r : Response) (b : Blob)
    (hv : (jsTrim f.textValue ≠ "" ∧ f.files = []) ∨ (jsTrim f.textValue = "" ∧ f.files ≠ []))
    (hf : env.fetched = some r) (hok : r.ok = true) (hb : r.blob = some b) :
    (r.contentDisposition = none →
      DownloadNamed p.log (Encoder.handleSubmit p f env).log env.objectURL "output.wav"
        (!env.clickThrows)) ∧
    (∀ h : String, r.contentDisposition = some h →
      (∀ before name, ¬ FilenameAttrAt h.data before name) →
      DownloadNamed p.log (Encoder.handleSubmit p f env).log env.objectURL "output.wav"
        (!env.clickThrows)) ∧
    (∀ (h : String) (before name : List Char), r.contentDisposition = some h →
      FilenameAttrAt h.data before name →
      (∀ before2 name2, FilenameAttrAt h.data before2 name2 →
        before.length ≤ before2.length) →
      DownloadNamed p.log (Encoder.handleSubmit p f env).log env.objectURL (String.mk name)
        (!env.clickThrows)) := by
  have key := encoder_success_downloadNamed p f env r b hv hf hok hb
  refine ⟨?_, ?_, ?_⟩
  · intro hd
    rw [hd] at key
    exact key
  · intro h hd hno
    rw [hd, (downloadFilename_spec h).2.1 hno] at key
    exact key
  · intro h before name hd hattr hmin
    rw [hd, (downloadFilename_spec h).2.2 before name hattr hmin] at key
    exact key

theorem download_filename_leftmost_witness :
    DownloadNamed idlePage.log
      (Encoder.handleSubmit idlePage sampleEncodeForm
        { fetched := some bareResponse, objectURL := "blob:1", clickThrows := false }).log
      "blob:1" "output.wav" true ∧
    DownloadNamed idlePage.log
      (Encoder.handleSubmit idlePage sampleEncodeForm
        { fetched := some inlineResponse, objectURL := "blob:1", clickThrows := false }).log
      "blob:1" "output.wav" true ∧
    (FilenameAttrAt "attachment; filename=\"song.wav\"".data "attachment; ".data "song.wav".data ∧
      DownloadNamed idlePage.log
        (Encoder.handleSubmit idlePage sampleEncodeForm
          { fetched := some songResponse, objectURL := "blob:1", clickThrows := false }).log
        "blob:1" "song.wav" true) ∧
    downloads (Encoder.handleSubmit idlePage sampleEncodeForm
        { fetched := some songResponse, objectURL := "blob:1", clickThrows := false }).log
      = [("blob:1", "song.wav")] := by
  have hno : ∀ before name, ¬ FilenameAttrAt "inline".data before name :=
    (matchFilename_eq_none_iff _).1 (by decide)
  have hattr : FilenameAttrAt "attachment; filename=\"song.wav\"".data "attachment; ".data
      "song.wav".data :=
    ⟨['"'], ['"'], by decide, Or.inr rfl, by decide, by decide, Or.inr ⟨'"', [], rfl, Or.inl rfl⟩⟩
  have hmin : ∀ before2 name2,
      FilenameAttrAt "attachment; filename=\"song.wav\"".data before2 name2 →
        "attachment; ".data.length ≤ before2.length := by
    intro before2 name2 h2
    by_contra hlt
    have hk : ∀ k < 12, matchHere ("attachment; filename=\"song.wav\"".data.drop k) = none := by
      decide
    have hm := matchHere_drop_of_attr _ _ _ h2
    rw [hk _ (by simpa using hlt)] at hm
    cases hm
  exact ⟨(download_filename_leftmost idlePage sampleEncodeForm
        { fetched := some bareResponse, objectURL := "blob:1", clickThrows := false }
        bareResponse _ (Or.inl ⟨by decide, rfl⟩) rfl rfl rfl).1 rfl,
    (download_filename_leftmost idlePage sampleEncodeForm
        { fetched := some inlineResponse, objectURL := "blob:1", clickThrows := false }
        inlineResponse _ (Or.inl ⟨by decide, rfl⟩) rfl rfl rfl).2.1 "inline" rfl hno,
    ⟨hattr, (download_filename_leftmost idlePage sampleEncodeForm
        { fetched := some songResponse, objectURL := "blob:1", clickThrows := false }
        songResponse _ (Or.inl ⟨by decide, rfl⟩) rfl rfl rfl).2.2
        "attachment; filename=\"song.wav\"" _ _ rfl hattr hmin⟩,
    by decide⟩

/-! ## Failure responses -/

theorem decoder_handleSubmit_of_file (p : Page) (f : DecodeForm) (fetched : Option Response)
    (h : f.files ≠ []) :
    Decoder.handleSubmit p f fetched =
      Decoder.catchFinally (Decoder.tryBody (Decoder.busyPage p) f.fields fetched) := by
  have h2 := (head?_isSome_iff _).2 h
  simp [Decoder.handleSubmit, h2, Decoder.busyPage, Page.emit]

/-- C4, as stated, fails for the empty detail string: the body `{"detail": ""}`
leaves 'Server error' in the error area of either form, not the empty text. -/
theorem empty_detail_shows_server_error :
    (Encoder.handleSubmit idlePage sampleEncodeForm
        { fetched := some (failureResponse (some (.obj [("detail", .str "")]))),
          objectURL := "blob:1", clickThrows := false }).encodeError = "Server error" ∧
    (Decoder.handleSubmit idlePage sampleDecodeForm
        (some (failureResponse (some (.obj [("detail", .str "")]))))).decodeError
      = "Server error" ∧
    "Server error" ≠ "" := by
  decide

/-- C4, amended. On either form, a non-success response whose body parses as an
object with a non-empty `detail` string `d` leaves exactly `d` in the error area.
On the encode form the calls made are the request and the busy-state calls only
(no object URL, no download click); on the decode form the output stays cleared. -/
theorem structured_failure_shown (p : Page) (ef : EncodeForm) (df : DecodeForm)
    (env : EncodeEnv) (r : Response) (props : List (String × JSValue)) (d : String)
    (hok : r.ok = false) (hjson : r.json = some (.obj props))
    (hdetail : lookupProp "detail" props = some (.str d)) (hd : d ≠ "") :
    (((jsTrim ef.textValue ≠ "" ∧ ef.files = []) ∨ (jsTrim ef.textValue = "" ∧ ef.files ≠ [])) →
      env.fetched = some r →
        (Encoder.handleSubmit p ef env).encodeError = d ∧
        ∃ payload, (Encoder.handleSubmit p ef env).log =
          p.log ++ [.preventDefault, .showOverlay, .setDisabled .encode true,
            .fetch "/encode" "POST" payload, .hideOverlay, .setDisabled .encode false]) ∧
    (df.files ≠ [] →
      (Decoder.handleSubmit p df (some r)).decodeError = d ∧
      (Decoder.handleSubmit p df (some r)).decodeOutput = "") := by
  have ht : strTruthy d = true := (strTruthy_eq_true_iff d).2 hd
  obtain ⟨ok, json, text, blob, disposition⟩ := r
  simp only at hok hjson
  subst hok hjson
  constructor
  · intro hv hf
    obtain ⟨fetched, url, clickThrows⟩ := env
    simp only at hf
    subst hf
    rw [encoder_handleSubmit_of_valid p ef _ hv]
    refine ⟨?_, Encoder.payload ef, ?_⟩ <;>
      simp [Encoder.tryBody, Encoder.catchFinally, Encoder.busyPage, getDetail, hdetail,
        detailOrDefault, truthy, ht, jsToString, UI.showOverlay, UI.hideOverlay,
        UI.setDisabled, Page.emit]
  · intro hf
    rw [decoder_handleSubmit_of_file p df _ hf]
    constructor <;>
      simp [Decoder.tryBody, Decoder.catchFinally, Decoder.busyPage, getDetail, hdetail,
        detailOrDefault, truthy, ht, jsToString, UI.showOverlay, UI.hideOverlay,
        UI.setDisabled, Page.emit]

theorem structured_failure_shown_witness :
    tooLongResponse.ok = false ∧ "too long" ≠ "" ∧
    (Encoder.handleSubmit idlePage sampleEncodeForm
      { fetched := some tooLongResponse, objectURL := "blob:1", clickThrows := false }).encodeError
      = "too long" ∧
    (Decoder.handleSubmit idlePage sampleDecodeForm (some tooLongResponse)).decodeError
      = "too long" ∧
    (Decoder.handleSubmit idlePage sampleDecodeForm (some tooLongResponse)).decodeOutput = "" :=
  have h := structured_failure_shown idlePage sampleEncodeForm sampleDecodeForm
    { fetched := some tooLongResponse, objectURL := "blob:1", clickThrows := false }
    tooLongResponse [("detail", .str "too long")] "too long" rfl rfl rfl (by decide)
  ⟨rfl, by decide, (h.1 (Or.inl ⟨by decide, rfl⟩) rfl).1, (h.2 (by decide)).1,
    (h.2 (by decide)).2⟩

/-- C5, as stated, fails: a body whose `detail` is a list, not a string, leaves
the list's string conversion in the error area of either form. -/
theorem list_detail_not_server_error :
    (Encoder.handleSubmit idlePage sampleEncodeForm
        { fetched := some (failureResponse (some listDetailBody)),
          objectURL := "blob:1", clickThrows := false }).encodeError = "[object Object]" ∧
    (Decoder.handleSubmit idlePage sampleDecodeForm
        (some (failureResponse (some listDetailBody)))).decodeError = "[object Object]" ∧
    "[object Object]" ≠ "Server error" := by
  decide

theorem detailOrDefault_of_missingOrFalsy (v : JSValue) (h : DetailMissingOrFalsy v) :
    ∃ detail, getDetail v = .ok detail ∧ jsToString (detailOrDefault detail) = "Server error" := by
  cases v with
  | null => exact absurd h (by simp [DetailMissingOrFalsy])
  | obj props =>
    simp only [DetailMissingOrFalsy] at h
    cases hl : lookupProp "detail" props with
    | none => exact ⟨none, by simp [getDetail, hl], rfl⟩
    | some w =>
      rw [hl] at h
      simp only at h
      exact ⟨some w, by simp [getDetail, hl], by simp [detailOrDefault, h, jsToString]⟩
  | bool b => exact ⟨none, rfl, rfl⟩
  | num n => exact ⟨none, rfl, rfl⟩
  | str t => exact ⟨none, rfl, rfl⟩
  | arr items => exact ⟨none, rfl, rfl⟩

/-- C5, amended. On either form, a non-success response whose body is not valid
JSON, or parses to a value other than `null` whose `detail` is missing or falsy,
leaves exactly 'Server error' in the error area. -/
theorem unusable_failure_body_shows_server_error (p : Page) (ef : EncodeForm) (df : DecodeForm)
    (env : EncodeEnv) (r : Response) (hok : r.ok = false)
    (hbody : r.json = none ∨ ∃ v, r.json = some v ∧ DetailMissingOrFalsy v) :
    (((jsTrim ef.textValue ≠ "" ∧ ef.files = []) ∨ (jsTrim ef.textValue = "" ∧ ef.files ≠ [])) →
      env.fetched = some r →
        (Encoder.handleSubmit p ef env).encodeError = "Server error") ∧
    (df.files ≠ [] → (Decoder.handleSubmit p df (some r)).decodeError = "Server error") := by
  obtain ⟨ok, json, text, blob, disposition⟩ := r
  simp only at hok hbody
  subst hok
  have key : ∃ detail,
      getDetail (match json with
        | some v => v
        | none => .obj [("detail", .str "Server error")]) = .ok detail ∧
      jsToString (detailOrDefault detail) = "Server error" := by
    rcases hbody with hj | ⟨v, hj, hv⟩
    · subst hj
      exact ⟨some (.str "Server error"), by simp [getDetail, lookupProp], by decide⟩
    · subst hj
      exact detailOrDefault_of_missingOrFalsy v hv
  obtain ⟨detail, hget, hshow⟩ := key
  constructor
  · intro hv hf
    obtain ⟨fetched, url, clickThrows⟩ := env
    simp only at hf
    subst hf
    rw [encoder_handleSubmit_of_valid p ef _ hv]
    simp [Encoder.tryBody, Encoder.catchFinally, hget, hshow, UI.hideOverlay,
      UI.setDisabled, Page.emit]
  · intro hf
    rw [decoder_handleSubmit_of_file p df _ hf]
    simp [Decoder.tryBody, Decoder.catchFinally, hget, hshow, UI.hideOverlay,
      UI.setDisabled, Page.emit]

theorem unusable_failure_body_shows_server_error_witness :
    (Encoder.handleSubmit idlePage sampleEncodeForm
      { fetched := some (failureResponse none), objectURL := "blob:1",
        clickThrows := false }).encodeError = "Server error" ∧
    (Decoder.handleSubmit idlePage sampleDecodeForm
      (some (failureResponse (some (.obj [("error", .str "boom")]))))).decodeError
      = "Server error" :=
  ⟨(unusable_failure_body_shows_server_error idlePage sampleEncodeForm sampleDecodeForm
      { fetched := some (failureResponse none), objectURL := "blob:1", clickThrows := false }
      (failureResponse none) rfl (Or.inl rfl)).1 (Or.inl ⟨by decide, rfl⟩) rfl,
   (unusable_failure_body_shows_server_error idlePage sampleEncodeForm sampleDecodeForm
      faultEnv (failureResponse (some (.obj [("error", .str "boom")]))) rfl
      (Or.inr ⟨_, rfl, by simp [DetailMissingOrFalsy, lookupProp]⟩)).2 (by decide)⟩

/-! ## Busy state -/

theorem encoder_tryBody_controls (p : Page) (fd : FormData) (env : EncodeEnv) :
    (Encoder.tryBody p fd env).1.encodeControls = p.encodeControls := by
  obtain ⟨fetched, url, clickThrows⟩ := env
  cases fetched with
  | none => simp [Encoder.tryBody, Page.emit]
  | some r =>
    obtain ⟨ok, json, text, blob, disposition⟩ := r
    cases ok with
    | false =>
      cases hd : getDetail (match json with
        | some v => v
        | none => .obj [("detail", .str "Server error")]) with
      | error e => simp [Encoder.tryBody, hd, Page.emit]
      | ok detail =>
        cases hs : jsToString (detailOrDefault detail) <;>
          simp [Encoder.tryBody, hd, hs, Page.emit]
    | true =>
      cases blob with
      | none => simp [Encoder.tryBody, Page.emit]
      | some b => cases clickThrows <;> simp [Encoder.tryBody, Page.emit]

theorem decoder_tryBody_controls (p : Page) (fd : FormData) (fetched : Option Response) :
    (Decoder.tryBody p fd fetched).1.decodeControls = p.decodeControls := by
  cases fetched with
  | none => simp [Decoder.tryBody, Page.emit]
  | some r =>
    obtain ⟨ok, json, text, blob, disposition⟩ := r
    cases ok with
    | false =>
      cases hd : getDetail (match json with
        | some v => v
        | none => .obj [("detail", .str "Server error")]) with
      | error e => simp [Decoder.tryBody, hd, Page.emit]
      | ok detail =>
        cases hs : jsToString (detailOrDefault detail) <;>
          simp [Decoder.tryBody, hd, hs, Page.emit]
    | true =>
      cases text <;> simp [Decoder.tryBody, Page.emit]

theorem encoder_catchFinally_idle (r : Page × Completion) :
    (Encoder.catchFinally r).overlayDisplay = "none" ∧
      (Encoder.catchFinally r).encodeControls =
        List.replicate r.1.encodeControls.length false := by
  obtain ⟨q, c⟩ := r
  cases c <;> simp [Encoder.catchFinally, UI.hideOverlay, UI.setDisabled, Page.emit]

theorem decoder_catchFinally_idle (r : Page × Completion) :
    (Decoder.catchFinally r).overlayDisplay = "none" ∧
      (Decoder.catchFinally r).decodeControls =
        List.replicate r.1.decodeControls.length false := by
  obtain ⟨q, c⟩ := r
  cases c <;> simp [Decoder.catchFinally, UI.hideOverlay, UI.setDisabled, Page.emit]

/-- After a submission that passed validation, whatever the request did, the
overlay is hidden and every control of the encode form is enabled. -/
theorem encoder_restored_of_valid (p : Page) (f : EncodeForm) (env : EncodeEnv)
    (h : Encoder.Valid f) :
    (Encoder.handleSubmit p f env).overlayDisplay = "none" ∧
      (Encoder.handleSubmit p f env).encodeControls =
        List.replicate p.encodeControls.length false := by
  rw [encoder_handleSubmit_of_valid p f env h]
  refine ⟨(encoder_catchFinally_idle _).1, ?_⟩
  rw [(encoder_catchFinally_idle _).2, encoder_tryBody_controls]
  simp [Encoder.busyPage, UI.showOverlay, UI.setDisabled, Page.emit]

/-- The same for the decode form. -/
theorem decoder_restored_of_file (p : Page) (f : DecodeForm) (fetched : Option Response)
    (h : f.files ≠ []) :
    (Decoder.handleSubmit p f fetched).overlayDisplay = "none" ∧
      (Decoder.handleSubmit p f fetched).decodeControls =
        List.replicate p.decodeControls.length false := by
  rw [decoder_handleSubmit_of_file p f fetched h]
  refine ⟨(decoder_catchFinally_idle _).1, ?_⟩
  rw [(decoder_catchFinally_idle _).2, decoder_tryBody_controls]
  simp [Decoder.busyPage, UI.showOverlay, UI.setDisabled, Page.emit]

/-- A submission that validation rejects leaves the overlay and the controls of
the encode form as they were. -/
theorem encoder_untouched_of_rejected (p : Page) (f : EncodeForm) (env : EncodeEnv)
    (h : ¬ Encoder.Valid f) :
    (Encoder.handleSubmit p f env).overlayDisplay = p.overlayDisplay ∧
      (Encoder.handleSubmit p f env).encodeControls = p.encodeControls := by
  by_cases ht : jsTrim f.textValue = "" <;> by_cases hf : f.files = []
  · have h1 := (strTruthy_eq_false_iff _).2 ht
    have h2 := (head?_isSome_eq_false_iff _).2 hf
    simp [Encoder.handleSubmit, h1, h2, Page.emit]
  · exact absurd (Or.inr ⟨ht, hf⟩) h
  · exact absurd (Or.inl ⟨ht, hf⟩) h
  · have h1 := (strTruthy_eq_true_iff _).2 ht
    have h2 := (head?_isSome_iff _).2 hf
    simp [Encoder.handleSubmit, h1, h2, Page.emit]

/-- C6. On either form, when the request of a valid submission rejects, the error
area ends with exactly 'Network error', the overlay is hidden and every control of
the submitting form is enabled. -/
theorem transport_fault_handled (p : Page) (ef : EncodeForm) (df : DecodeForm)
    (env : EncodeEnv) :
    (((jsTrim ef.textValue ≠ "" ∧ ef.files = []) ∨ (jsTrim ef.textValue = "" ∧ ef.files ≠ [])) →
      env.fetched = none →
        (Encoder.handleSubmit p ef env).encodeError = "Network error" ∧
        (Encoder.handleSubmit p ef env).overlayDisplay = "none" ∧
        (Encoder.handleSubmit p ef env).encodeControls =
          List.replicate p.encodeControls.length false) ∧
    (df.files ≠ [] →
      (Decoder.handleSubmit p df none).decodeError = "Network error" ∧
      (Decoder.handleSubmit p df none).overlayDisplay = "none" ∧
      (Decoder.handleSubmit p df none).decodeControls =
        List.replicate p.decodeControls.length false) := by
  constructor
  · intro hv hf
    refine ⟨?_, encoder_restored_of_valid p ef env hv⟩
    obtain ⟨fetched, url, clickThrows⟩ := env
    simp only at hf
    subst hf
    rw [encoder_handleSubmit_of_valid p ef _ hv]
    simp [Encoder.tryBody, Encoder.catchFinally, UI.hideOverlay, UI.setDisabled, Page.emit]
  · intro hf
    refine ⟨?_, decoder_restored_of_file p df none hf⟩
    rw [decoder_handleSubmit_of_file p df _ hf]
    simp [Decoder.tryBody, Decoder.catchFinally, UI.hideOverlay, UI.setDisabled, Page.emit]

theorem transport_fault_handled_witness :
    ((Encoder.handleSubmit bothBusyPage sampleEncodeForm faultEnv).encodeError = "Network error" ∧
      (Encoder.handleSubmit bothBusyPage sampleEncodeForm faultEnv).overlayDisplay = "none" ∧
      (Encoder.handleSubmit bothBusyPage sampleEncodeForm faultEnv).encodeControls
        = [false, false, false]) ∧
    ((Decoder.handleSubmit bothBusyPage sampleDecodeForm none).decodeError = "Network error" ∧
      (Decoder.handleSubmit bothBusyPage sampleDecodeForm none).overlayDisplay = "none" ∧
      (Decoder.handleSubmit bothBusyPage sampleDecodeForm none).decodeControls = [false, false]) :=
  ⟨(transport_fault_handled bothBusyPage sampleEncodeForm sampleDecodeForm faultEnv).1
      (Or.inl ⟨by decide, rfl⟩) rfl,
    (transport_fault_handled bothBusyPage sampleEncodeForm sampleDecodeForm faultEnv).2
      (by decide)⟩

/-- A decode submission without a file leaves the overlay and the controls of the
decode form as they were. -/
theorem decoder_untouched_of_no_file (p : Page) (f : DecodeForm) (fetched : Option Response)
    (h : f.files = []) :
    (Decoder.handleSubmit p f fetched).overlayDisplay = p.overlayDisplay ∧
      (Decoder.handleSubmit p f fetched).decodeControls = p.decodeControls := by
  have h2 := (head?_isSome_eq_false_iff _).2 h
  simp [Decoder.handleSubmit, h2, Page.emit]

/-- C7, as stated, fails on the validation-rejected path. While the other form's
request is in flight the overlay is shown; a submission that validation rejects
returns without touching it, and the handler finishes with the overlay shown. -/
theorem rejected_submission_leaves_overlay_shown :
    (jsTrim emptyEncodeForm.textValue = "" ∧ emptyEncodeForm.files = []) ∧
    (Encoder.handleSubmit decodeInFlightPage emptyEncodeForm faultEnv).overlayDisplay = "flex" ∧
    ¬ Idle (Encoder.handleSubmit decodeInFlightPage emptyEncodeForm faultEnv).overlayDisplay
        (Encoder.handleSubmit decodeInFlightPage emptyEncodeForm faultEnv).encodeControls ∧
    emptyDecodeForm.files = [] ∧
    (Decoder.handleSubmit encodeInFlightPage emptyDecodeForm none).overlayDisplay = "flex" ∧
    ¬ Idle (Decoder.handleSubmit encodeInFlightPage emptyDecodeForm none).overlayDisplay
        (Decoder.handleSubmit encodeInFlightPage emptyDecodeForm none).decodeControls := by
  refine ⟨⟨by decide, rfl⟩, by decide, ?_, rfl, by decide, ?_⟩
  · intro h
    have h1 := h.1
    revert h1
    decide
  · intro h
    have h1 := h.1
    revert h1
    decide

/-- C7, amended. When a submit handler finishes a submission that passed
validation, on every path the request can take (success, structured failure,
transport failure) and whatever the page was before, the overlay is hidden and
every control of its form is enabled.  A submission that validation rejects never
enters busy state: the handler leaves the overlay and the controls of its form
exactly as they were. -/
theorem busy_state_restored (p : Page) (ef : EncodeForm) (df : DecodeForm) (env : EncodeEnv)
    (fetched : Option Response) :
    ((((jsTrim ef.textValue ≠ "" ∧ ef.files = []) ∨
          (jsTrim ef.textValue = "" ∧ ef.files ≠ [])) →
        Idle (Encoder.handleSubmit p ef env).overlayDisplay
          (Encoder.handleSubmit p ef env).encodeControls) ∧
      (((jsTrim ef.textValue ≠ "" ∧ ef.files ≠ []) ∨
          (jsTrim ef.textValue = "" ∧ ef.files = [])) →
        (Encoder.handleSubmit p ef env).overlayDisplay = p.overlayDisplay ∧
        (Encoder.handleSubmit p ef env).encodeControls = p.encodeControls)) ∧
    ((df.files ≠ [] →
        Idle (Decoder.handleSubmit p df fetched).overlayDisplay
          (Decoder.handleSubmit p df fetched).decodeControls) ∧
      (df.files = [] →
        (Decoder.handleSubmit p df fetched).overlayDisplay = p.overlayDisplay ∧
        (Decoder.handleSubmit p df fetched).decodeControls = p.decodeControls)) := by
  refine ⟨⟨?_, ?_⟩, ⟨?_, ?_⟩⟩
  · intro hv
    obtain ⟨h1, h2⟩ := encoder_restored_of_valid p ef env hv
    refine ⟨h1, ?_⟩
    rw [h2]
    intro b hb
    exact (List.mem_replicate.1 hb).2
  · intro hr
    apply encoder_untouched_of_rejected
    rintro (⟨ht, hf⟩ | ⟨ht, hf⟩)
    · rcases hr with ⟨-, hf2⟩ | ⟨ht2, -⟩
      · exact hf2 hf
      · exact ht ht2
    · rcases hr with ⟨ht2, -⟩ | ⟨-, hf2⟩
      · exact ht2 ht
      · exact hf hf2
  · intro hf
    obtain ⟨h1, h2⟩ := decoder_restored_of_file p df fetched hf
    refine ⟨h1, ?_⟩
    rw [h2]
    intro b hb
    exact (List.mem_replicate.1 hb).2
  · intro hf
    exact decoder_untouched_of_no_file p df fetched hf

theorem busy_state_restored_witness :
    Idle (Encoder.handleSubmit bothBusyPage sampleEncodeForm
        { fetched := some songResponse, objectURL := "blob:1", clickThrows := false }).overlayDisplay
      (Encoder.handleSubmit bothBusyPage sampleEncodeForm
        { fetched := some songResponse, objectURL := "blob:1", clickThrows := false }).encodeControls ∧
    ((Encoder.handleSubmit decodeInFlightPage emptyEncodeForm faultEnv).overlayDisplay
        = decodeInFlightPage.overlayDisplay ∧
      (Encoder.handleSubmit decodeInFlightPage emptyEncodeForm faultEnv).encodeControls
        = decodeInFlightPage.encodeControls) ∧
    Idle (Decoder.handleSubmit bothBusyPage sampleDecodeForm (some tooLongResponse)).overlayDisplay
      (Decoder.handleSubmit bothBusyPage sampleDecodeForm (some tooLongResponse)).decodeControls ∧
    ((Decoder.handleSubmit idlePage emptyDecodeForm none).overlayDisplay
        = idlePage.overlayDisplay ∧
      (Decoder.handleSubmit idlePage emptyDecodeForm none).decodeControls
        = idlePage.decodeControls) :=
  ⟨(busy_state_restored bothBusyPage sampleEncodeForm sampleDecodeForm
      { fetched := some songResponse, objectURL := "blob:1", clickThrows := false }
      (some tooLongResponse)).1.1 (Or.inl ⟨by decide, rfl⟩),
    (busy_state_restored decodeInFlightPage emptyEncodeForm emptyDecodeForm faultEnv none).1.2
      (Or.inr ⟨by decide, rfl⟩),
    (busy_state_restored bothBusyPage sampleEncodeForm sampleDecodeForm faultEnv
      (some tooLongResponse)).2.1 (by decide),
    (busy_state_restored idlePage emptyEncodeForm emptyDecodeForm faultEnv none).2.2 rfl⟩

/-! ## The object URL -/

/-- C8, as stated, fails where the claim takes the download click to throw: the
object URL `blob:1` is created and the handler finishes, through `catch` and
`finally`, without revoking it. -/
theorem object_url_not_revoked_when_click_throws :
    (Encoder.handleSubmit idlePage sampleEncodeForm
        { fetched := some songResponse, objectURL := "blob:1", clickThrows := true }).log =
      [.preventDefault, .showOverlay, .setDisabled .encode true,
        .fetch "/encode" "POST" [("text", .text " hi ")],
        .createObjectURL { bytes := [82, 73, 70, 70] } "blob:1",
        .appendAnchor "blob:1" "song.wav",
        .hideOverlay, .setDisabled .encode false] ∧
    revoked (Encoder.handleSubmit idlePage sampleEncodeForm
        { fetched := some songResponse, objectURL := "blob:1", clickThrows := true }).log = [] ∧
    (Encoder.handleSubmit idlePage sampleEncodeForm
        { fetched := some songResponse, objectURL := "blob:1", clickThrows := true }).encodeError
      = "Network error" := by
  decide

/-- C8, amended. For every valid encode submission answered by a success response
with a readable body, when the download click returns, the object URL created for
the body is revoked before `Encoder.handleSubmit` finishes: the handler's calls
are, in order, the request, `createObjectURL`, the anchor and its click,
`revokeObjectURL` of that URL, and the exit from busy state. -/
theorem object_url_revoked_when_click_returns (p : Page) (f : EncodeForm) (env : EncodeEnv)
    (r : Response) (b : Blob)
    (hv : (jsTrim f.textValue ≠ "" ∧ f.files = []) ∨ (jsTrim f.textValue = "" ∧ f.files ≠ []))
    (hf : env.fetched = some r) (hok : r.ok = true) (hb : r.blob = some b)
    (hc : env.clickThrows = false) :
    (∃ payload name, (Encoder.handleSubmit p f env).log =
      p.log ++ [.preventDefault, .showOverlay, .setDisabled .encode true,
        .fetch "/encode" "POST" payload,
        .createObjectURL b env.objectURL,
        .appendAnchor env.objectURL name, .click env.objectURL name, .removeAnchor,
        .revokeObjectURL env.objectURL,
        .hideOverlay, .setDisabled .encode false]) ∧
    revoked (Encoder.handleSubmit p f env).log = revoked p.log ++ [env.objectURL] := by
  have hlog := encoder_success_log p f env r b hv hf hok hb
  rw [hc] at hlog
  refine ⟨⟨Encoder.payload f, downloadFilename r.contentDisposition, ?_⟩, ?_⟩
  · rw [hlog]
    simp
  · rw [hlog]
    simp [revoked_append, revoked]

theorem object_url_revoked_when_click_returns_witness :
    songResponse.ok = true ∧
    revoked (Encoder.handleSubmit idlePage sampleEncodeForm
        { fetched := some songResponse, objectURL := "blob:1", clickThrows := false }).log
      = revoked idlePage.log ++ ["blob:1"] :=
  ⟨rfl, (object_url_revoked_when_click_returns idlePage sampleEncodeForm
      { fetched := some songResponse, objectURL := "blob:1", clickThrows := false }
      songResponse { bytes := [82, 73, 70, 70] } (Or.inl ⟨by decide, rfl⟩) rfl rfl rfl rfl).2⟩

/-! ## `Decoder` -/

/-- C9. `Decoder.handleSubmit` with no file selected ends with the error text
'Provide a WAV file.' after `preventDefault` alone: no request, overlay and
controls as they were.  With a file selected and a success response whose text
body is `t`, the output control ends with exactly `t`. -/
theorem decoder_submit (p : Page) (df : DecodeForm) (fetched : Option Response) :
    (df.files = [] →
      Decoder.handleSubmit p df fetched =
        { p with decodeError := "Provide a WAV file.", decodeOutput := "",
                 log := p.log ++ [Effect.preventDefault] }) ∧
    (∀ (r : Response) (t : String), df.files ≠ [] → fetched = some r → r.ok = true →
      r.text = some t → (Decoder.handleSubmit p df fetched).decodeOutput = t) := by
  constructor
  · intro hf
    have h2 := (head?_isSome_eq_false_iff _).2 hf
    simp [Decoder.handleSubmit, h2, Page.emit]
  · intro r t hf hr hok ht
    subst hr
    obtain ⟨ok, json, text, blob, disposition⟩ := r
    simp only at hok ht
    subst hok ht
    rw [decoder_handleSubmit_of_file p df _ hf]
    simp [Decoder.tryBody, Decoder.catchFinally, UI.hideOverlay, UI.setDisabled, Page.emit]

theorem decoder_submit_witness :
    (Decoder.handleSubmit idlePage emptyDecodeForm none =
        { idlePage with decodeError := "Provide a WAV file.", decodeOutput := "",
                        log := idlePage.log ++ [Effect.preventDefault] }) ∧
    (Decoder.handleSubmit idlePage sampleDecodeForm (some helloResponse)).decodeOutput
      = "hello world" :=
  ⟨(decoder_submit idlePage emptyDecodeForm none).1 rfl,
    (decoder_submit idlePage sampleDecodeForm (some helloResponse)).2 helloResponse
      "hello world" (by decide) rfl rfl rfl⟩

/-- C10, as stated, fails where the page has no clipboard: `Decoder.copy` then
asks for no write at all, of the output value 'hello world' or of anything else,
and only shows 'Copy failed'. -/
theorem copy_without_clipboard_requests_nothing :
    (Decoder.copy shownOutputPage .unavailable).log = [] ∧
    Effect.clipboardWrite "hello world" ∉ (Decoder.copy shownOutputPage .unavailable).log ∧
    (Decoder.copy shownOutputPage .unavailable).decodeError = "Copy failed" := by
  decide

/-- C10, amended. Where the page has a clipboard, `Decoder.copy` asks it to write
exactly the output control's value, and nothing else changes when the write
succeeds.  When the write is rejected, or the page has no clipboard and no write
is asked for, the error area gets exactly 'Copy failed' and nothing else on the
page changes: the output value, the overlay and both forms' controls are as they
were. -/
theorem copy_output (p : Page) :
    Decoder.copy p .resolves =
      { p with log := p.log ++ [Effect.clipboardWrite p.decodeOutput] } ∧
    Decoder.copy p .rejects =
      { p with decodeError := "Copy failed",
               log := p.log ++ [Effect.clipboardWrite p.decodeOutput] } ∧
    Decoder.copy p .unavailable = { p with decodeError := "Copy failed" } := by
  simp [Decoder.copy, Page.emit]

end GhostLink
